import Mathlib

/-!
Verification of the face sign-in match engine of
`NewwaysAdmin.WorkerAttendance.Python/unified_video_detection.py`.

The engine consumes already-computed face embeddings, so the embedding type
`E` and the distance function `dist : E → E → ℚ` (the external
`face_recognition.face_distance`) are parameters of the model.  Python floats
that can be `inf` (the initial `best_distance = float('inf')`) are modelled as
`WithTop ℚ`; values that can additionally be `-inf` (confidences, distance
gaps) as `WithBot ℚ` and `WithBot (WithTop ℚ)`.
-/

namespace UnifiedVideoDetection

/-- One enrolled worker as held in `self.workers` after `load_workers`:
`{'id': …, 'name': …, 'encodings': …}`. -/
structure Worker (E : Type) where
  id : Nat
  name : String
  encodings : List E
deriving DecidableEq

/-- `self.min_confidence_distance = 0.45` (set in `__init__`, never mutated). -/
def min_confidence_distance : ℚ := 0.45

/-- `self.ambiguity_threshold = 0.15` (set in `__init__`, never mutated). -/
def ambiguity_threshold : ℚ := 0.15

/-- `self.detection_threshold = 5` (set in `__init__`, never mutated). -/
def detection_threshold : Int := 5

/-- Python `round` on a rational: nearest integer, ties to even. -/
def pyRoundInt (q : ℚ) : ℤ :=
  if q - ⌊q⌋ < (1 / 2 : ℚ) then ⌊q⌋
  else if (1 / 2 : ℚ) < q - ⌊q⌋ then ⌊q⌋ + 1
  else if ⌊q⌋ % 2 = 0 then ⌊q⌋ else ⌊q⌋ + 1

/-- Python `round(q, 1)`: round to one decimal place. -/
def pyRound1 (q : ℚ) : ℚ := (pyRoundInt (q * 10) : ℚ) / 10

/-- `confidence = round((1.0 - best_distance) * 100, 1)` (line 121).  When
`best_distance` is `inf` (worker with no encodings) this is `-inf`, modelled
as `⊥`. -/
def pyConfidence : WithTop ℚ → WithBot ℚ
  | none => ⊥
  | some q => ((pyRound1 ((1 - q) * 100) : ℚ) : WithBot ℚ)

/-- IEEE-style subtraction `a - b` of two values in `ℚ ∪ {inf}`:
`inf - finite = inf`, `finite - inf = -inf`.  The `inf - inf` case is `NaN`
in Python; it is unreachable in `recognize_face` (the first operand there is
`second.distance ≥ first.distance` and the weak-match check has already
bounded `first.distance ≤ 0.45`), and is mapped to `⊥` here. -/
def floatSub : WithTop ℚ → WithTop ℚ → WithBot (WithTop ℚ)
  | none, some _ => some none
  | some a, some b => some (some (a - b))
  | some _, none => ⊥
  | none, none => ⊥

/-- Inner loop of `recognize_face` (lines 111–118): the best (minimum)
distance over the worker's stored encodings together with its index, starting
from `best_distance = float('inf')`, `best_encoding_index = -1`. -/
def bestEncodingMatch {E : Type} (dist : E → E → ℚ) (query : E)
    (encodings : List E) : WithTop ℚ × Int :=
  encodings.enum.foldl
    (fun acc p =>
      if ((dist p.2 query : ℚ) : WithTop ℚ) < acc.1
      then (((dist p.2 query : ℚ) : WithTop ℚ), (p.1 : Int))
      else acc)
    ((⊤ : WithTop ℚ), (-1 : Int))

/-- One entry of `all_matches` (lines 122–127). -/
structure MatchEntry (E : Type) where
  worker : Worker E
  distance : WithTop ℚ
  confidence : WithBot ℚ
  encoding_index : Int
deriving DecidableEq

/-- `all_matches` before sorting (lines 107–127): one entry per worker, in
storage order. -/
def allMatches {E : Type} (dist : E → E → ℚ) (query : E)
    (workers : List (Worker E)) : List (MatchEntry E) :=
  workers.map fun w =>
    let bm := bestEncodingMatch dist query w.encodings
    { worker := w, distance := bm.1, confidence := pyConfidence bm.1,
      encoding_index := bm.2 }

/-- Sort relation of `all_matches.sort(key=lambda x: x['distance'])`. -/
def matchLE {E : Type} (a b : MatchEntry E) : Prop := a.distance ≤ b.distance

instance {E : Type} : DecidableRel (@matchLE E) :=
  fun a b => inferInstanceAs (Decidable (a.distance ≤ b.distance))

instance {E : Type} : IsTotal (MatchEntry E) matchLE :=
  ⟨fun a b => le_total a.distance b.distance⟩

instance {E : Type} : IsTrans (MatchEntry E) matchLE :=
  ⟨fun _ _ _ hab hbc => le_trans hab hbc⟩

/-- `all_matches` after the ascending sort by distance (line 130).  Python's
`list.sort` is a stable sort; it is modelled by insertion sort on the
non-strict key order, which is also stable. -/
def sortedMatches {E : Type} (dist : E → E → ℚ) (query : E)
    (workers : List (Worker E)) : List (MatchEntry E) :=
  (allMatches dist query workers).insertionSort matchLE

/-- Outcome of one `recognize_face` call, keeping which of the mutually
exclusive branches (lines 102–165) was taken. -/
inductive RecOutcome (E : Type) where
  | disabled : RecOutcome E
  | tooWeak (best : MatchEntry E) : RecOutcome E
  | ambiguous (best second : MatchEntry E) : RecOutcome E
  | accepted (best : MatchEntry E) (second : Option (MatchEntry E)) : RecOutcome E
deriving DecidableEq

/-- `recognize_face` (lines 92–169).  The `disabled` outcome is the silent
`return None` when recognition is off or no workers are loaded; the `[]`
sort-result branch is unreachable (the worker list was checked non-empty)
and also maps to `disabled`. -/
def recognizeOutcome {E : Type} (dist : E → E → ℚ) (enabled : Bool)
    (workers : List (Worker E)) (query : E) : RecOutcome E :=
  if !enabled || workers.isEmpty then .disabled
  else
    match sortedMatches dist query workers with
    | [] => .disabled
    | best :: rest =>
      let second := rest.head?
      if (min_confidence_distance : WithTop ℚ) < best.distance then
        .tooWeak best
      else
        match second with
        | some s =>
          if floatSub s.distance best.distance
              < ((ambiguity_threshold : ℚ) : WithBot (WithTop ℚ)) then
            .ambiguous best s
          else .accepted best (some s)
        | none => .accepted best none

/-- The dict returned by `recognize_face` on success (lines 156–165). -/
structure RecognitionResult where
  worker_name : String
  confidence : WithBot ℚ
  worker_id : Nat
  distance : WithTop ℚ
  encoding_used : Int
  second_best_name : Option String
  second_best_confidence : WithBot ℚ
  distance_gap : WithBot (WithTop ℚ)
deriving DecidableEq

/-- Builds the returned dict from the best and second-best matches. -/
def mkResult {E : Type} (best : MatchEntry E) (second : Option (MatchEntry E)) :
    RecognitionResult where
  worker_name := best.worker.name
  confidence := best.confidence
  worker_id := best.worker.id
  distance := best.distance
  encoding_used := best.encoding_index
  second_best_name := second.map fun s => s.worker.name
  second_best_confidence := match second with
    | some s => s.confidence
    | none => 0
  distance_gap := match second with
    | some s => floatSub s.distance best.distance
    | none => ((1 : ℚ) : WithBot (WithTop ℚ))

/-- The value `recognize_face` returns: the dict on acceptance, `None`
otherwise. -/
def recognizeFaceResult {E : Type} : RecOutcome E → Option RecognitionResult
  | .accepted best second => some (mkResult best second)
  | _ => none

/-- The externally visible decision of one matcher call: who (if anyone) was
named, or why the match was rejected.  Payload fields are the ones carried by
the `signin_recognition` event. -/
inductive Decision where
  | accepted (worker_id : Nat) (worker_name : String) (confidence : WithBot ℚ) : Decision
  | rejectedWeak : Decision
  | rejectedAmbiguous : Decision
  | disabled : Decision
deriving DecidableEq

/-- Decision projection of a matcher outcome. -/
def decisionOf {E : Type} : RecOutcome E → Decision
  | .accepted best _ => .accepted best.worker.id best.worker.name best.confidence
  | .tooWeak _ => .rejectedWeak
  | .ambiguous _ _ => .rejectedAmbiguous
  | .disabled => .disabled

/-! ## Session state machine

`VideoDetectionService` holds the mutable session state.  A processing tick
is `check_commands()` followed by `process_frame()` (lines 359–362 of the run
loop).  The camera, the face detector and the embedding encoder are external:
a tick's `Observation` is modelled as the list of embeddings of the faces
detected in the frame (`face_locations` and `face_encodings` have one entry
per detected face, so `len(faces) > 0` is the list being non-empty).

To settle ordering claims, a tick is embedded as the ordered list of its
primitive actions (event emissions and field assignments, in source order);
the successor state is obtained by folding the assignments.  The drawing
calls (`cv2.rectangle`, `cv2.putText`) touch no session state and are
omitted.  Status/error message text is modelled as a tagged kind carrying the
payload the source interpolates into the f-string. -/

/-- Kinds of `status`/`error` messages sent by the service. -/
inductive StatusMsg where
  | matchTooWeak (bestName : String) (bestConfidence : WithBot ℚ) : StatusMsg
  | ambiguousMatch (bestName secondName : String) : StatusMsg
  | clearMatch (bestName : String) (bestConfidence : WithBot ℚ) : StatusMsg
  | waitingForConfirmation (name : String) : StatusMsg
  | detectionStarted : StatusMsg
  | detectionStopped : StatusMsg
  | signinConfirmedFor (name : String) : StatusMsg
  | nothingToConfirm : StatusMsg
  | loadedWorkers (count : Nat) : StatusMsg
  | noWorkersFound : StatusMsg
  | errorLoadingRecord (filename : String) : StatusMsg
  | receivedCommand : StatusMsg
deriving DecidableEq

/-- Messages sent over stdout to the host (`send_message`). -/
inductive Event where
  | status (msg : StatusMsg) : Event
  | error (msg : String) : Event
  | signin_recognition (worker_name : String) (confidence : WithBot ℚ)
      (worker_id : Nat) : Event
  | signin_unknown : Event
  | signin_confirmed (worker_name : String) (confidence : WithBot ℚ)
      (worker_id : Nat) : Event
deriving DecidableEq

/-- `self.detection_mode`: "idle", "detecting" or "confirmation". -/
inductive Mode where
  | idle : Mode
  | detecting : Mode
  | confirmation : Mode
deriving DecidableEq

/-- The mutable fields of `VideoDetectionService` that the session logic
touches. -/
structure SessionState (E : Type) where
  detection_mode : Mode
  detection_count : Int
  recognition_result : Option RecognitionResult
  workers : List (Worker E)
  recognition_enabled : Bool
  running : Bool
deriving DecidableEq

/-- The `__init__` state of the service. -/
def initState (E : Type) : SessionState E where
  detection_mode := .idle
  detection_count := 0
  recognition_result := none
  workers := []
  recognition_enabled := false
  running := false

/-- One primitive step of a tick: an event emission or a field assignment. -/
inductive Action (E : Type) where
  | emit (e : Event) : Action E
  | setMode (m : Mode) : Action E
  | setCount (n : Int) : Action E
  | setResult (r : Option RecognitionResult) : Action E
  | setWorkers (ws : List (Worker E)) : Action E
  | setEnabled (b : Bool) : Action E
  | setRunning (b : Bool) : Action E
  | matcherCall (query : E) : Action E
deriving DecidableEq

/-- Effect of one action on the state (emissions and the recorded
`matcherCall` marker leave the state unchanged). -/
def applyAction {E : Type} (s : SessionState E) : Action E → SessionState E
  | .emit _ => s
  | .setMode m => { s with detection_mode := m }
  | .setCount n => { s with detection_count := n }
  | .setResult r => { s with recognition_result := r }
  | .setWorkers ws => { s with workers := ws }
  | .setEnabled b => { s with recognition_enabled := b }
  | .setRunning b => { s with running := b }
  | .matcherCall _ => s

/-- Folds a list of actions over a state. -/
def runActions {E : Type} (s : SessionState E) (l : List (Action E)) :
    SessionState E :=
  l.foldl applyAction s

/-- Status messages `recognize_face` itself sends (lines 140, 148, 153). -/
def recognizeEvents {E : Type} : RecOutcome E → List Event
  | .disabled => []
  | .tooWeak best => [.status (.matchTooWeak best.worker.name best.confidence)]
  | .ambiguous best second =>
      [.status (.ambiguousMatch best.worker.name second.worker.name)]
  | .accepted best _ => [.status (.clearMatch best.worker.name best.confidence)]

/-- Lines 234–241: the guarded call of `recognize_face` on the first
embedding once the debounce threshold is reached.  Returns the local
`recognition_result` together with the recorded actions (a `matcherCall`
marker and the matcher's own status messages). -/
def invokeMatcher {E : Type} (dist : E → E → ℚ) (s : SessionState E)
    (obs : List E) : Option RecognitionResult × List (Action E) :=
  if s.recognition_enabled && !obs.isEmpty then
    match obs with
    | [] => (none, [])
    | q :: _ =>
      let outcome := recognizeOutcome dist s.recognition_enabled s.workers q
      (recognizeFaceResult outcome,
       Action.matcherCall q :: (recognizeEvents outcome).map Action.emit)
  else (none, [])

/-- Session-state content of `process_frame` (lines 191–310); the camera
read, detector dispatch and all drawing are external or pure rendering. -/
def processFrameActions {E : Type} (dist : E → E → ℚ) (s : SessionState E)
    (obs : List E) : List (Action E) :=
  match s.detection_mode with
  | .detecting =>
    if 0 < obs.length then
      let c := s.detection_count + 1
      Action.setCount c ::
        (if detection_threshold ≤ c then
          let im := invokeMatcher dist s obs
          im.2 ++
            (match im.1 with
             | some r =>
               [Action.emit (.signin_recognition r.worker_name r.confidence
                  r.worker_id),
                Action.setMode .confirmation,
                Action.setResult (some r),
                Action.emit (.status (.waitingForConfirmation r.worker_name))]
             | none =>
               [Action.emit .signin_unknown,
                Action.setMode .idle,
                Action.setCount 0])
         else [])
    else
      if 0 < s.detection_count then
        [Action.setCount (s.detection_count - 1)]
      else []
  | .confirmation => []
  | .idle => []

/-- One worker JSON file as seen by `load_workers`: either its read/parse
raised (skip-and-warn), or it decoded to the record's fields. -/
inductive LoadRecord (E : Type) where
  | decodeFailure (filename : String) : LoadRecord E
  | ok (isActive : Bool) (id : Nat) (name : String) (encodings : List E) :
      LoadRecord E
deriving DecidableEq

/-- Contents of the workers folder: `none` when the folder is missing. -/
abbrev LoadSource (E : Type) := Option (List (LoadRecord E))

/-- The per-file loop of `load_workers` (lines 52–78): skips inactive
records and records without face data, appends the rest to `self.workers`.
Returns the recorded actions and the final worker list. -/
def loadRecordsActions {E : Type} (acc : List (Worker E)) :
    List (LoadRecord E) → List (Action E) × List (Worker E)
  | [] => ([], acc)
  | r :: rest =>
    match r with
    | .decodeFailure fn =>
      let p := loadRecordsActions acc rest
      (Action.emit (.status (.errorLoadingRecord fn)) :: p.1, p.2)
    | .ok isActive i n encs =>
      if !isActive then loadRecordsActions acc rest
      else if encs.isEmpty then loadRecordsActions acc rest
      else
        let acc' := acc ++ [⟨i, n, encs⟩]
        let p := loadRecordsActions acc' rest
        (Action.setWorkers acc' :: p.1, p.2)

/-- `load_workers` (lines 39–90).  `self.workers = []` precedes the folder
existence check; `recognition_enabled` is assigned only in the
`worker_count > 0` branch (line 81) — the `else` branch (lines 84–86) leaves
it at its previous value. -/
def loadWorkersActions {E : Type} (src : LoadSource E) : List (Action E) :=
  Action.setWorkers [] ::
    match src with
    | none => [Action.emit (.error "Workers folder not found")]
    | some records =>
      let p := loadRecordsActions [] records
      p.1 ++
        (if 0 < p.2.length then
          [Action.setEnabled true, Action.emit (.status (.loadedWorkers p.2.length))]
         else
          [Action.emit (.status .noWorkersFound)])

/-- Commands read from the command file by `check_commands` (lines 397–406).
`reload_workers` carries the folder contents the reload will see; any other
file content is `unrecognized`. -/
inductive Command (E : Type) where
  | start_detection : Command E
  | stop_detection : Command E
  | confirm_signin : Command E
  | reload_workers (src : LoadSource E) : Command E
  | stop : Command E
  | unrecognized (text : String) : Command E
deriving DecidableEq

/-- Dispatch of one command (`start_detection` lines 312–317,
`stop_detection` 319–324, `confirm_signin` 326–340, `reload_workers`
342–344, `stop` 346–348; unrecognized commands fall through). -/
def commandActions {E : Type} (s : SessionState E) :
    Command E → List (Action E)
  | .start_detection =>
      [Action.setMode .detecting, Action.setCount 0, Action.setResult none,
       Action.emit (.status .detectionStarted)]
  | .stop_detection =>
      [Action.setMode .idle, Action.setCount 0, Action.setResult none,
       Action.emit (.status .detectionStopped)]
  | .confirm_signin =>
      (match s.recognition_result with
       | some r =>
         [Action.emit (.signin_confirmed r.worker_name r.confidence
            r.worker_id),
          Action.emit (.status (.signinConfirmedFor r.worker_name))]
       | none => [Action.emit (.status .nothingToConfirm)]) ++
      [Action.setMode .idle, Action.setCount 0, Action.setResult none]
  | .reload_workers src => loadWorkersActions src
  | .stop => [Action.setRunning false]
  | .unrecognized _ => []

/-- `check_commands` (lines 382–409): at most one command file per tick; any
command found is acknowledged with a status message before dispatch. -/
def checkCommandActions {E : Type} (s : SessionState E) :
    Option (Command E) → List (Action E)
  | none => []
  | some c => Action.emit (.status .receivedCommand) :: commandActions s c

/-- Input of one loop iteration: the optional command file found by
`check_commands` and the frame's Observation. -/
structure Input (E : Type) where
  cmd : Option (Command E)
  obs : List E
deriving DecidableEq

/-- Action trace of one loop iteration: the command actions, then
`process_frame` on the state as updated by the command. -/
def tickActions {E : Type} (dist : E → E → ℚ) (s : SessionState E)
    (i : Input E) : List (Action E) :=
  let ca := checkCommandActions s i.cmd
  ca ++ processFrameActions dist (runActions s ca) i.obs

/-- State after one loop iteration. -/
def tick {E : Type} (dist : E → E → ℚ) (s : SessionState E) (i : Input E) :
    SessionState E :=
  runActions s (tickActions dist s i)

/-- State after a sequence of loop iterations. -/
def runInputs {E : Type} (dist : E → E → ℚ) (s : SessionState E)
    (l : List (Input E)) : SessionState E :=
  l.foldl (tick dist) s

/-- Concatenated action trace of a sequence of loop iterations. -/
def runTrace {E : Type} (dist : E → E → ℚ) (s : SessionState E) :
    List (Input E) → List (Action E)
  | [] => []
  | i :: rest => tickActions dist s i ++ runTrace dist (tick dist s i) rest

/-- The matcher invocations recorded in a trace, with their query
embeddings. -/
def matcherCalls {E : Type} (tr : List (Action E)) : List E :=
  tr.filterMap fun a =>
    match a with
    | .matcherCall q => some q
    | _ => none

/-- Whether an action is the emission of a `signin_confirmed` event. -/
def isSigninConfirmed {E : Type} : Action E → Bool
  | .emit (.signin_confirmed _ _ _) => true
  | _ => false

/-- Local ordering discipline of one action with respect to the rest of its
trace: a `signin_recognition` emission must be immediately followed by the
switch to confirmation mode it announces, a `signin_unknown` emission
immediately by the reset to idle, and a `signin_confirmed` emission by a
reset to idle somewhere later in the same trace. -/
def signinOk {E : Type} (a : Action E) (rest : List (Action E)) : Bool :=
  match a with
  | .emit (.signin_recognition _ _ _) =>
      match rest.head? with
      | some (Action.setMode Mode.confirmation) => true
      | _ => false
  | .emit .signin_unknown =>
      match rest.head? with
      | some (Action.setMode Mode.idle) => true
      | _ => false
  | .emit (.signin_confirmed _ _ _) =>
      rest.any fun b =>
        match b with
        | Action.setMode Mode.idle => true
        | _ => false
  | _ => true

/-- Every signin event emission in the trace satisfies `signinOk` with
respect to the actions that follow it. -/
def signinOrdered {E : Type} : List (Action E) → Bool
  | [] => true
  | a :: rest => signinOk a rest && signinOrdered rest

/-- The session states reachable from the `__init__` state by loop
iterations (the startup `initialize`/`load_workers` is the same action
sequence as a `reload_workers` command). -/
inductive Reachable {E : Type} (dist : E → E → ℚ) : SessionState E → Prop where
  | init : Reachable dist (initState E)
  | step {s : SessionState E} (i : Input E) :
      Reachable dist s → Reachable dist (tick dist s i)

/-- A concrete distance function on one-dimensional rational "embeddings",
used to instantiate the model on explicit inputs. -/
def pdist : ℚ → ℚ → ℚ := fun a b => if a ≤ b then b - a else a - b

/-- The sample load command: one active worker `A` with one encoding. -/
def loadOneWorker : Command ℚ := .reload_workers (some [.ok true 1 "A" [0]])

/-- A concrete run: load one worker, start detection, then five frames each
showing one face whose embedding matches the enrolled one exactly. -/
def demoInputs : List (Input ℚ) :=
  [⟨some loadOneWorker, []⟩, ⟨some .start_detection, []⟩,
   ⟨none, [0]⟩, ⟨none, [0]⟩, ⟨none, [0]⟩, ⟨none, [0]⟩, ⟨none, [0]⟩]

/-! ## Helper lemmas -/

/-- The sorted match list is a permutation of the unsorted one. -/
lemma sortedMatches_perm {E : Type} (dist : E → E → ℚ) (query : E)
    (workers : List (Worker E)) :
    (sortedMatches dist query workers).Perm (allMatches dist query workers) :=
  List.perm_insertionSort matchLE _

/-- The sorted match list is sorted by distance. -/
lemma sortedMatches_sorted {E : Type} (dist : E → E → ℚ) (query : E)
    (workers : List (Worker E)) :
    (sortedMatches dist query workers).Sorted matchLE :=
  List.sorted_insertionSort matchLE _

/-- A non-empty sorted match list forces a non-empty worker list. -/
lemma workers_ne_nil_of_sorted {E : Type} {dist : E → E → ℚ} {query : E}
    {workers : List (Worker E)} {b : MatchEntry E} {rest : List (MatchEntry E)}
    (h : sortedMatches dist query workers = b :: rest) :
    workers.isEmpty = false := by
  have hlen : (sortedMatches dist query workers).length =
      (allMatches dist query workers).length :=
    (sortedMatches_perm dist query workers).length_eq
  rw [h] at hlen
  cases workers with
  | nil => simp [allMatches] at hlen
  | cons w ws => rfl

/-- The sorted match list has one entry per worker. -/
lemma sortedMatches_length {E : Type} (dist : E → E → ℚ) (query : E)
    (workers : List (Worker E)) :
    (sortedMatches dist query workers).length = workers.length := by
  rw [(sortedMatches_perm dist query workers).length_eq]
  simp [allMatches]

/-- The head of the sorted match list has minimal distance among all match
entries. -/
lemma sorted_head_le {E : Type} {dist : E → E → ℚ} {query : E}
    {workers : List (Worker E)} {b : MatchEntry E} {rest : List (MatchEntry E)}
    (h : sortedMatches dist query workers = b :: rest) :
    ∀ m ∈ allMatches dist query workers, b.distance ≤ m.distance := by
  intro m hm
  have hperm := sortedMatches_perm dist query workers
  rw [h] at hperm
  have hmem : m ∈ b :: rest := hperm.mem_iff.mpr hm
  have hsorted := sortedMatches_sorted dist query workers
  rw [h] at hsorted
  rcases List.mem_cons.mp hmem with hb | hr
  · rw [hb]
  · exact (List.sorted_cons.mp hsorted).1 m hr

/-- Permuting the workers permutes the unsorted match list. -/
lemma allMatches_perm {E : Type} (dist : E → E → ℚ) (query : E)
    {ws ws' : List (Worker E)} (hp : ws.Perm ws') :
    (allMatches dist query ws).Perm (allMatches dist query ws') :=
  hp.map _

/-- Permuting the workers leaves the sorted list of distances unchanged. -/
lemma sorted_keys_eq {E : Type} (dist : E → E → ℚ) (query : E)
    {ws ws' : List (Worker E)} (hp : ws.Perm ws') :
    (sortedMatches dist query ws).map (fun m => m.distance) =
      (sortedMatches dist query ws').map (fun m => m.distance) := by
  have hperm : ((sortedMatches dist query ws).map
      (fun m => m.distance)).Perm
      ((sortedMatches dist query ws').map (fun m => m.distance)) :=
    (((sortedMatches_perm dist query ws).trans
      (allMatches_perm dist query hp)).trans
      (sortedMatches_perm dist query ws').symm).map _
  have hs1 : ((sortedMatches dist query ws).map
      (fun m => m.distance)).Sorted (· ≤ ·) :=
    List.Pairwise.map _ (fun _ _ hab => hab)
      (sortedMatches_sorted dist query ws)
  have hs2 : ((sortedMatches dist query ws').map
      (fun m => m.distance)).Sorted (· ≤ ·) :=
    List.Pairwise.map _ (fun _ _ hab => hab)
      (sortedMatches_sorted dist query ws')
  exact List.eq_of_perm_of_sorted hperm hs1 hs2

/-- Every match entry records its worker's best distance and derived
confidence. -/
lemma mem_allMatches {E : Type} {dist : E → E → ℚ} {query : E}
    {workers : List (Worker E)} {m : MatchEntry E}
    (hm : m ∈ allMatches dist query workers) :
    m.worker ∈ workers ∧
    m.distance = (bestEncodingMatch dist query m.worker.encodings).1 := by
  rcases List.mem_map.mp hm with ⟨w, hw, heq⟩
  constructor
  · rw [← heq]; exact hw
  · rw [← heq]

/-! ## C1: best-identity invariance -/

/-- C1: with at least two enrolled identities, the matcher's decision —
who is accepted, or why the match is rejected — is invariant under any
permutation of the stored worker list, and whenever it accepts, the named
identity is one whose `best_distance` is globally minimal over the
snapshot.  (The sort plus the strictly positive ambiguity gap make the
accepted identity unique; ties are rejected as ambiguous, identically in
any order.) -/
theorem C1_best_identity {E : Type} (dist : E → E → ℚ) (enabled : Bool)
    (ws ws' : List (Worker E)) (query : E)
    (hp : ws.Perm ws') (h2 : 2 ≤ ws.length) :
    decisionOf (recognizeOutcome dist enabled ws query) =
      decisionOf (recognizeOutcome dist enabled ws' query) ∧
    (∀ wid wname conf,
       decisionOf (recognizeOutcome dist enabled ws query) =
         Decision.accepted wid wname conf →
       ∃ w ∈ ws, w.id = wid ∧ w.name = wname ∧
         ∀ w2 ∈ ws, (bestEncodingMatch dist query w.encodings).1 ≤
           (bestEncodingMatch dist query w2.encodings).1) := by
  cases enabled with
  | false =>
    refine ⟨rfl, fun wid wname conf hacc => ?_⟩
    exact absurd hacc (by simp [recognizeOutcome, decisionOf])
  | true =>
    have h2' : 2 ≤ ws'.length := hp.length_eq ▸ h2
    have hne : ws.isEmpty = false := by
      cases ws with
      | nil => simp at h2
      | cons w t => rfl
    have hne' : ws'.isEmpty = false := by
      cases ws' with
      | nil => simp at h2'
      | cons w t => rfl
    obtain ⟨b, s, t, hL⟩ : ∃ b s t,
        sortedMatches dist query ws = b :: s :: t := by
      have hlen := sortedMatches_length dist query ws
      cases hLs : sortedMatches dist query ws with
      | nil => rw [hLs] at hlen; simp at hlen; omega
      | cons b rest =>
        cases rest with
        | nil => rw [hLs] at hlen; simp at hlen; omega
        | cons s t => exact ⟨b, s, t, rfl⟩
    obtain ⟨b', s', t', hL'⟩ : ∃ b' s' t',
        sortedMatches dist query ws' = b' :: s' :: t' := by
      have hlen := sortedMatches_length dist query ws'
      cases hLs : sortedMatches dist query ws' with
      | nil => rw [hLs] at hlen; simp at hlen; omega
      | cons b rest =>
        cases rest with
        | nil => rw [hLs] at hlen; simp at hlen; omega
        | cons s t => exact ⟨b, s, t, rfl⟩
    have hkeys := sorted_keys_eq dist query hp
    rw [hL, hL'] at hkeys
    simp only [List.map_cons, List.cons.injEq] at hkeys
    obtain ⟨hbd, hsd, _⟩ := hkeys
    have e1 : recognizeOutcome dist true ws query =
        if (min_confidence_distance : WithTop ℚ) < b.distance then
          RecOutcome.tooWeak b
        else if floatSub s.distance b.distance <
            ((ambiguity_threshold : ℚ) : WithBot (WithTop ℚ)) then
          RecOutcome.ambiguous b s
        else RecOutcome.accepted b (some s) := by
      simp [recognizeOutcome, hne, hL]
    have e2 : recognizeOutcome dist true ws' query =
        if (min_confidence_distance : WithTop ℚ) < b'.distance then
          RecOutcome.tooWeak b'
        else if floatSub s'.distance b'.distance <
            ((ambiguity_threshold : ℚ) : WithBot (WithTop ℚ)) then
          RecOutcome.ambiguous b' s'
        else RecOutcome.accepted b' (some s') := by
      simp [recognizeOutcome, hne', hL']
    have hsortedL := sortedMatches_sorted dist query ws
    rw [hL] at hsortedL
    -- In the accepted branch the best entries coincide.
    have hbb' : ¬ (min_confidence_distance : WithTop ℚ) < b.distance →
        ¬ floatSub s.distance b.distance <
          ((ambiguity_threshold : ℚ) : WithBot (WithTop ℚ)) →
        b' = b := by
      intro hW hG
      have hlt : b.distance < s.distance := by
        cases hb : b.distance with
        | top =>
          exfalso
          exact hW (hb ▸ WithTop.coe_lt_top _)
        | coe β =>
          cases hs : s.distance with
          | top => exact WithTop.coe_lt_top β
          | coe σ =>
            rw [hb, hs] at hG
            have hfs : floatSub (σ : WithTop ℚ) (β : WithTop ℚ) =
                some (some (σ - β)) := rfl
            rw [hfs] at hG
            have hge : ambiguity_threshold ≤ σ - β := by
              by_contra hcon
              push_neg at hcon
              have hcast : ((σ - β : ℚ) : WithBot (WithTop ℚ)) <
                  ((ambiguity_threshold : ℚ) : WithBot (WithTop ℚ)) := by
                exact_mod_cast hcon
              exact hG hcast
            have hpos : (0 : ℚ) < ambiguity_threshold := by
              norm_num [ambiguity_threshold]
            exact_mod_cast (by linarith : β < σ)
      have hmem' : b' ∈ sortedMatches dist query ws := by
        have h1 : b' ∈ sortedMatches dist query ws' := by
          rw [hL']; exact List.mem_cons_self _ _
        have h2m : b' ∈ allMatches dist query ws' :=
          (sortedMatches_perm dist query ws').mem_iff.mp h1
        have h3 : b' ∈ allMatches dist query ws :=
          (allMatches_perm dist query hp).mem_iff.mpr h2m
        exact (sortedMatches_perm dist query ws).mem_iff.mpr h3
      rw [hL] at hmem'
      rcases List.mem_cons.mp hmem' with hcase | hmem2
      · exact hcase
      · exfalso
        have hslesb' : s.distance ≤ b'.distance := by
          rcases List.mem_cons.mp hmem2 with hcs | hmt
          · rw [hcs]
          · exact (List.sorted_cons.mp
              (List.sorted_cons.mp hsortedL).2).1 b' hmt
        rw [← hbd] at hslesb'
        exact absurd (lt_of_lt_of_le hlt hslesb') (lt_irrefl _)
    constructor
    · rw [e1, e2, ← hbd, ← hsd]
      by_cases hW : (min_confidence_distance : WithTop ℚ) < b.distance
      · rw [if_pos hW, if_pos hW]; rfl
      · rw [if_neg hW, if_neg hW]
        by_cases hG : floatSub s.distance b.distance <
            ((ambiguity_threshold : ℚ) : WithBot (WithTop ℚ))
        · rw [if_pos hG, if_pos hG]; rfl
        · rw [if_neg hG, if_neg hG]
          rw [hbb' hW hG]
          rfl
    · intro wid wname conf hacc
      rw [e1] at hacc
      by_cases hW : (min_confidence_distance : WithTop ℚ) < b.distance
      · rw [if_pos hW] at hacc
        exact absurd hacc (by simp [decisionOf])
      · rw [if_neg hW] at hacc
        by_cases hG : floatSub s.distance b.distance <
            ((ambiguity_threshold : ℚ) : WithBot (WithTop ℚ))
        · rw [if_pos hG] at hacc
          exact absurd hacc (by simp [decisionOf])
        · rw [if_neg hG] at hacc
          simp only [decisionOf, Decision.accepted.injEq] at hacc
          obtain ⟨hid, hname, _⟩ := hacc
          have hbmem : b ∈ allMatches dist query ws := by
            have : b ∈ sortedMatches dist query ws := by
              rw [hL]; exact List.mem_cons_self _ _
            exact (sortedMatches_perm dist query ws).mem_iff.mp this
          obtain ⟨hwmem, hdist⟩ := mem_allMatches hbmem
          refine ⟨b.worker, hwmem, hid, hname, fun w2 hw2 => ?_⟩
          have hw2mem : (⟨w2, (bestEncodingMatch dist query w2.encodings).1,
               pyConfidence (bestEncodingMatch dist query w2.encodings).1,
               (bestEncodingMatch dist query w2.encodings).2⟩ : MatchEntry E) ∈
              allMatches dist query ws := by
            simp only [allMatches, List.mem_map]
            exact ⟨w2, hw2, rfl⟩
          have := sorted_head_le hL _ hw2mem
          rw [hdist] at this
          exact this

/-- C1 witness: two identities at distances 0.3 and 0.5 in both storage
orders produce the same decision. -/
theorem C1_best_identity_witness :
    decisionOf (recognizeOutcome pdist true
        [⟨1, "A", [(3/10 : ℚ)]⟩, ⟨2, "B", [(1/2 : ℚ)]⟩] 0) =
      decisionOf (recognizeOutcome pdist true
        [⟨2, "B", [(1/2 : ℚ)]⟩, ⟨1, "A", [(3/10 : ℚ)]⟩] 0) :=
  (C1_best_identity pdist true
    [⟨1, "A", [(3/10 : ℚ)]⟩, ⟨2, "B", [(1/2 : ℚ)]⟩]
    [⟨2, "B", [(1/2 : ℚ)]⟩, ⟨1, "A", [(3/10 : ℚ)]⟩] 0
    (by with_unfolding_all decide) (by decide)).1

/-! ## C5: inclusive distance threshold -/

/-- C5: for every non-empty snapshot and query embedding, if the best
identity's `best_distance` equals `max_distance_threshold`
(`min_confidence_distance = 0.45`) the matcher does not reject with
`too_weak` (the threshold comparison on line 139 is strict `>`, hence
inclusive on acceptance), and if `best_distance` exceeds the threshold the
matcher rejects with `too_weak`. -/
theorem C5_threshold_boundary {E : Type} (dist : E → E → ℚ) (query : E)
    (workers : List (Worker E)) (b : MatchEntry E) (rest : List (MatchEntry E))
    (hs : sortedMatches dist query workers = b :: rest) :
    (b.distance = ((min_confidence_distance : ℚ) : WithTop ℚ) →
       decisionOf (recognizeOutcome dist true workers query) ≠
         Decision.rejectedWeak) ∧
    (((min_confidence_distance : ℚ) : WithTop ℚ) < b.distance →
       recognizeOutcome dist true workers query = RecOutcome.tooWeak b) := by
  have hne := workers_ne_nil_of_sorted hs
  constructor
  · intro heq
    have hnlt : ¬ ((min_confidence_distance : ℚ) : WithTop ℚ) < b.distance := by
      rw [heq]; exact lt_irrefl _
    simp only [recognizeOutcome, hne, Bool.not_true, Bool.false_or,
      Bool.false_eq_true, if_false, hs, hnlt, if_false]
    cases rest with
    | nil => simp [decisionOf]
    | cons s rest' =>
      simp only [List.head?]
      split
      · simp [decisionOf]
      · simp [decisionOf]
  · intro hlt
    simp [recognizeOutcome, hne, hs, hlt]

/-- C5 witness: an identity at distance exactly 0.45 is not rejected as too
weak; one at distance 0.6 is. -/
theorem C5_threshold_boundary_witness :
    decisionOf (recognizeOutcome pdist true [⟨1, "A", [(45/100 : ℚ)]⟩] 0) ≠
      Decision.rejectedWeak ∧
    recognizeOutcome pdist true [⟨1, "A", [(3/5 : ℚ)]⟩] 0 =
      RecOutcome.tooWeak ⟨⟨1, "A", [3/5]⟩, some (3/5), some 40, 0⟩ :=
  ⟨(C5_threshold_boundary pdist 0 [⟨1, "A", [45/100]⟩]
      ⟨⟨1, "A", [45/100]⟩, some (45/100), some 55, 0⟩ []
      (by with_unfolding_all decide)).1 (by with_unfolding_all decide),
   (C5_threshold_boundary pdist 0 [⟨1, "A", [3/5]⟩]
      ⟨⟨1, "A", [3/5]⟩, some (3/5), some 40, 0⟩ []
      (by with_unfolding_all decide)).2 (by with_unfolding_all decide)⟩

/-! ## C6: inclusive ambiguity gap -/

/-- C6: with at least two identities and a best match passing the distance
threshold, a gap exactly equal to `min_gap_threshold`
(`ambiguity_threshold = 0.15`) is accepted (the comparison on line 147 is
strict `<`), while any smaller gap is rejected as `ambiguous`. -/
theorem C6_gap_boundary {E : Type} (dist : E → E → ℚ) (query : E)
    (workers : List (Worker E)) (b s : MatchEntry E) (rest : List (MatchEntry E))
    (hs : sortedMatches dist query workers = b :: s :: rest)
    (hw : ¬ ((min_confidence_distance : ℚ) : WithTop ℚ) < b.distance) :
    (floatSub s.distance b.distance =
        ((ambiguity_threshold : ℚ) : WithBot (WithTop ℚ)) →
       recognizeOutcome dist true workers query =
         RecOutcome.accepted b (some s)) ∧
    (floatSub s.distance b.distance <
        ((ambiguity_threshold : ℚ) : WithBot (WithTop ℚ)) →
       recognizeOutcome dist true workers query = RecOutcome.ambiguous b s) := by
  have hne := workers_ne_nil_of_sorted hs
  constructor
  · intro heq
    have hnlt : ¬ floatSub s.distance b.distance <
        ((ambiguity_threshold : ℚ) : WithBot (WithTop ℚ)) := by
      rw [heq]; exact lt_irrefl _
    simp [recognizeOutcome, hne, hs, hw, hnlt]
  · intro hlt
    simp [recognizeOutcome, hne, hs, hw, hlt]

/-- C6 witness: identities at distances 0.3 and 0.45 (gap exactly 0.15) are
accepted; at 0.3 and 0.4 (gap 0.1) the match is rejected as ambiguous. -/
theorem C6_gap_boundary_witness :
    recognizeOutcome pdist true [⟨1, "A", [(3/10 : ℚ)]⟩, ⟨2, "B", [(45/100 : ℚ)]⟩] 0 =
      RecOutcome.accepted ⟨⟨1, "A", [3/10]⟩, some (3/10), some 70, 0⟩
        (some ⟨⟨2, "B", [45/100]⟩, some (45/100), some 55, 0⟩) ∧
    recognizeOutcome pdist true [⟨1, "A", [(3/10 : ℚ)]⟩, ⟨2, "B", [(2/5 : ℚ)]⟩] 0 =
      RecOutcome.ambiguous ⟨⟨1, "A", [3/10]⟩, some (3/10), some 70, 0⟩
        ⟨⟨2, "B", [2/5]⟩, some (2/5), some 60, 0⟩ :=
  ⟨(C6_gap_boundary pdist 0 [⟨1, "A", [3/10]⟩, ⟨2, "B", [45/100]⟩]
      ⟨⟨1, "A", [3/10]⟩, some (3/10), some 70, 0⟩
      ⟨⟨2, "B", [45/100]⟩, some (45/100), some 55, 0⟩ []
      (by with_unfolding_all decide) (by with_unfolding_all decide)).1
      (by with_unfolding_all decide),
   (C6_gap_boundary pdist 0 [⟨1, "A", [3/10]⟩, ⟨2, "B", [2/5]⟩]
      ⟨⟨1, "A", [3/10]⟩, some (3/10), some 70, 0⟩
      ⟨⟨2, "B", [2/5]⟩, some (2/5), some 60, 0⟩ []
      (by with_unfolding_all decide) (by with_unfolding_all decide)).2
      (by with_unfolding_all decide)⟩

/-! ## C7: decay floor of the debounce counter -/

/-- C7: in the `Detecting` state, a tick whose Observation is empty sets
`detection_count` to `max 0 (detection_count - 1)`: the source decrements
only when the count is positive (lines 270–271), so it decays by exactly one
and never becomes negative. -/
theorem C7_decay_floor {E : Type} (dist : E → E → ℚ) (s : SessionState E)
    (hm : s.detection_mode = Mode.detecting) (hc : 0 ≤ s.detection_count) :
    (tick dist s ⟨none, []⟩).detection_count =
      max 0 (s.detection_count - 1) := by
  simp only [tick, tickActions, checkCommandActions, runActions,
    List.foldl_nil, List.nil_append, processFrameActions, hm]
  simp only [List.length_nil, lt_irrefl, if_false]
  split
  · rename_i h
    simp only [List.foldl_cons, List.foldl_nil, applyAction]
    omega
  · rename_i h
    simp only [List.foldl_nil]
    omega

/-- C7 witness: a concrete detecting state with count 3 decays to 2 on an
empty tick. -/
theorem C7_decay_floor_witness :
    (tick pdist ⟨Mode.detecting, 3, none, [], false, false⟩ ⟨none, []⟩).detection_count
      = max 0 (3 - 1) :=
  C7_decay_floor pdist ⟨Mode.detecting, 3, none, [], false, false⟩ rfl
    (by decide)

/-! ## C9: confirm with nothing pending -/

/-- C9: in any session state whose `pending_decision`
(`recognition_result`) is `None`, processing the `confirm` command emits the
"nothing to confirm" status event, performs no matcher invocation, emits no
`signin_confirmed` event, and leaves the session in `Idle` (lines 326–340
always reset to idle; the recognizer is never called from `confirm_signin`,
and `process_frame` runs afterwards in idle mode). -/
theorem C9_confirm_nothing {E : Type} (dist : E → E → ℚ) (s : SessionState E)
    (obs : List E) (h : s.recognition_result = none) :
    Action.emit (Event.status StatusMsg.nothingToConfirm) ∈
        tickActions dist s ⟨some Command.confirm_signin, obs⟩ ∧
    matcherCalls (tickActions dist s ⟨some Command.confirm_signin, obs⟩) = [] ∧
    (tickActions dist s ⟨some Command.confirm_signin, obs⟩).any
        isSigninConfirmed = false ∧
    (tick dist s ⟨some Command.confirm_signin, obs⟩).detection_mode =
      Mode.idle := by
  simp [tickActions, tick, checkCommandActions, commandActions, h,
    runActions, applyAction, processFrameActions, matcherCalls,
    isSigninConfirmed]

/-- C9 witness: the confirm command on a concrete detecting state with no
pending result. -/
theorem C9_confirm_nothing_witness :
    Action.emit (Event.status StatusMsg.nothingToConfirm) ∈
        tickActions pdist ⟨Mode.detecting, 2, none, [], true, true⟩
          ⟨some Command.confirm_signin, [5]⟩ ∧
    matcherCalls (tickActions pdist ⟨Mode.detecting, 2, none, [], true, true⟩
        ⟨some Command.confirm_signin, [5]⟩) = [] ∧
    (tickActions pdist ⟨Mode.detecting, 2, none, [], true, true⟩
        ⟨some Command.confirm_signin, [5]⟩).any isSigninConfirmed = false ∧
    (tick pdist ⟨Mode.detecting, 2, none, [], true, true⟩
        ⟨some Command.confirm_signin, [5]⟩).detection_mode = Mode.idle :=
  C9_confirm_nothing pdist ⟨Mode.detecting, 2, none, [], true, true⟩ [5] rfl

/-! ## C8: debounce threshold triggers exactly one matcher invocation -/

/-- Splitting a trace at an append of input sequences. -/
lemma runTrace_append {E : Type} (dist : E → E → ℚ) (l₁ l₂ : List (Input E)) :
    ∀ s : SessionState E,
      runTrace dist s (l₁ ++ l₂) =
        runTrace dist s l₁ ++ runTrace dist (runInputs dist s l₁) l₂ := by
  induction l₁ with
  | nil => intro s; rfl
  | cons i rest ih =>
    intro s
    show tickActions dist s i ++ runTrace dist (tick dist s i) (rest ++ l₂) =
      (tickActions dist s i ++ runTrace dist (tick dist s i) rest) ++
        runTrace dist (runInputs dist (tick dist s i) rest) l₂
    rw [ih (tick dist s i)]
    exact (List.append_assoc _ _ _).symm

/-- Emitted events are not matcher invocations. -/
lemma matcherCalls_map_emit {E : Type} (l : List Event) :
    matcherCalls (l.map (@Action.emit E)) = [] := by
  induction l with
  | nil => rfl
  | cons e rest ih => simp_all [matcherCalls]

/-- A detecting-state tick with one or more faces, below the threshold:
just an increment, no matcher invocation. -/
lemma tick_detecting_below {E : Type} (dist : E → E → ℚ) (s : SessionState E)
    (q : E) (r : List E) (hm : s.detection_mode = Mode.detecting)
    (hc : s.detection_count + 1 < detection_threshold) :
    tickActions dist s ⟨none, q :: r⟩ =
      [Action.setCount (s.detection_count + 1)] ∧
    tick dist s ⟨none, q :: r⟩ =
      { s with detection_count := s.detection_count + 1 } := by
  have hlt : ¬ detection_threshold ≤ s.detection_count + 1 := by omega
  constructor
  · simp [tickActions, checkCommandActions, runActions, processFrameActions,
      hm, hlt]
  · simp [tick, tickActions, checkCommandActions, runActions,
      processFrameActions, hm, hlt, applyAction]

/-- A run of command-free, non-empty-Observation ticks in `Detecting` that
stays below the threshold: no matcher invocation, and the count advances by
the length of the run. -/
lemma detect_run_below {E : Type} (dist : E → E → ℚ) :
    ∀ (inputs : List (Input E)) (s : SessionState E),
      s.detection_mode = Mode.detecting →
      (∀ i ∈ inputs, i.cmd = none ∧ i.obs ≠ []) →
      s.detection_count + inputs.length < detection_threshold →
      matcherCalls (runTrace dist s inputs) = [] ∧
      (runInputs dist s inputs).detection_mode = Mode.detecting ∧
      (runInputs dist s inputs).detection_count =
        s.detection_count + inputs.length ∧
      (runInputs dist s inputs).recognition_enabled =
        s.recognition_enabled := by
  intro inputs
  induction inputs with
  | nil =>
    intro s hm _ _
    simp [runTrace, runInputs, matcherCalls, hm]
  | cons i rest ih =>
    intro s hm hin hlen
    obtain ⟨hcmd, hobs⟩ := hin i (List.mem_cons_self i rest)
    obtain ⟨q, r, hqr⟩ : ∃ q r, i.obs = q :: r := by
      cases hio : i.obs with
      | nil => exact absurd hio hobs
      | cons q r => exact ⟨q, r, rfl⟩
    have hi : i = ⟨none, q :: r⟩ := by
      cases i; simp_all
    have hstep := tick_detecting_below dist s q r hm (by
      simp only [List.length_cons] at hlen; omega)
    have hrest : ∀ j ∈ rest, j.cmd = none ∧ j.obs ≠ [] := fun j hj =>
      hin j (List.mem_cons_of_mem i hj)
    have ihs := ih { s with detection_count := s.detection_count + 1 } hm
      hrest (by simp only [List.length_cons] at hlen; simp; omega)
    have hruns : runInputs dist s (i :: rest) =
        runInputs dist { s with detection_count := s.detection_count + 1 }
          rest := by
      simp only [runInputs, List.foldl_cons, hi, hstep.2]
    refine ⟨?_, ?_, ?_, ?_⟩
    · have : runTrace dist s (i :: rest) =
          tickActions dist s i ++ runTrace dist (tick dist s i) rest := rfl
      rw [this, hi, hstep.2] at *
      simp only [matcherCalls, List.filterMap_append] at *
      rw [hstep.1]
      simp only [List.filterMap_cons, List.filterMap_nil]
      simpa [matcherCalls] using ihs.1
    · rw [hruns]; exact ihs.2.1
    · rw [hruns, ihs.2.2.1]
      simp only [List.length_cons]
      omega
    · rw [hruns]; exact ihs.2.2.2

/-- Matcher invocations split over trace concatenation. -/
lemma matcherCalls_append {E : Type} (l₁ l₂ : List (Action E)) :
    matcherCalls (l₁ ++ l₂) = matcherCalls l₁ ++ matcherCalls l₂ :=
  List.filterMap_append l₁ l₂ _

/-- A detecting-state tick with one or more faces that reaches the
threshold records exactly one matcher invocation, with the Observation's
first embedding. -/
lemma tick_detecting_hit {E : Type} (dist : E → E → ℚ) (s : SessionState E)
    (q : E) (r : List E) (hm : s.detection_mode = Mode.detecting)
    (he : s.recognition_enabled = true)
    (hc : detection_threshold ≤ s.detection_count + 1) :
    matcherCalls (tickActions dist s ⟨none, q :: r⟩) = [q] := by
  simp only [tickActions, checkCommandActions, runActions, List.foldl_nil,
    List.nil_append, processFrameActions, hm, invokeMatcher, he,
    List.isEmpty_cons, Bool.not_false, Bool.and_self, if_true,
    List.length_cons]
  rw [if_pos (Nat.succ_pos r.length), if_pos hc]
  cases hout : recognizeFaceResult
      (recognizeOutcome dist true s.workers q) with
  | none =>
    simp [matcherCalls, List.filterMap_cons, List.filterMap_append,
      matcherCalls_map_emit, hout]
  | some rr =>
    simp [matcherCalls, List.filterMap_cons, List.filterMap_append,
      matcherCalls_map_emit, hout]

/-- C8: starting in `Detecting` with count 0 and recognition enabled, a run
of exactly `detection_threshold` (5) command-free ticks with non-empty
Observations invokes the matcher exactly once, on the last tick, with that
Observation's first embedding; any shorter run invokes it never. -/
theorem C8_debounce {E : Type} (dist : E → E → ℚ) (s : SessionState E)
    (hm : s.detection_mode = Mode.detecting) (hc : s.detection_count = 0)
    (he : s.recognition_enabled = true) :
    (∀ inputs : List (Input E),
       (inputs.length : Int) < detection_threshold →
       (∀ i ∈ inputs, i.cmd = none ∧ i.obs ≠ []) →
       matcherCalls (runTrace dist s inputs) = []) ∧
    (∀ (q₁ q₂ q₃ q₄ q₅ : E) (r₁ r₂ r₃ r₄ r₅ : List E),
       matcherCalls (runTrace dist s
         [⟨none, q₁ :: r₁⟩, ⟨none, q₂ :: r₂⟩, ⟨none, q₃ :: r₃⟩,
          ⟨none, q₄ :: r₄⟩, ⟨none, q₅ :: r₅⟩]) = [q₅]) := by
  constructor
  · intro inputs hlen hin
    exact (detect_run_below dist inputs s hm hin (by omega)).1
  · intro q₁ q₂ q₃ q₄ q₅ r₁ r₂ r₃ r₄ r₅
    have hsplit : ([⟨none, q₁ :: r₁⟩, ⟨none, q₂ :: r₂⟩, ⟨none, q₃ :: r₃⟩,
        ⟨none, q₄ :: r₄⟩, ⟨none, q₅ :: r₅⟩] : List (Input E)) =
        [⟨none, q₁ :: r₁⟩, ⟨none, q₂ :: r₂⟩, ⟨none, q₃ :: r₃⟩,
         ⟨none, q₄ :: r₄⟩] ++ [⟨none, q₅ :: r₅⟩] := rfl
    have h4 := detect_run_below dist
      [⟨none, q₁ :: r₁⟩, ⟨none, q₂ :: r₂⟩, ⟨none, q₃ :: r₃⟩,
       ⟨none, q₄ :: r₄⟩] s hm
      (by
        intro i hi
        simp only [List.mem_cons, List.not_mem_nil, or_false] at hi
        rcases hi with h | h | h | h <;> subst h <;>
          exact ⟨rfl, List.cons_ne_nil _ _⟩)
      (by
        simp only [List.length_cons, List.length_nil, hc, detection_threshold]
        omega)
    rw [hsplit, runTrace_append, matcherCalls_append, h4.1]
    have hhit := tick_detecting_hit dist
      (runInputs dist s
        [⟨none, q₁ :: r₁⟩, ⟨none, q₂ :: r₂⟩, ⟨none, q₃ :: r₃⟩,
         ⟨none, q₄ :: r₄⟩]) q₅ r₅ h4.2.1 (h4.2.2.2.trans he)
      (by
        rw [h4.2.2.1]
        simp only [List.length_cons, List.length_nil, hc, detection_threshold]
        omega)
    simp only [List.nil_append, runTrace, List.append_nil]
    exact hhit

/-- C8 witness: with one enrolled worker, a single-tick run invokes the
matcher never and a five-tick run exactly once with the first embedding. -/
theorem C8_debounce_witness :
    matcherCalls (runTrace pdist
        ⟨Mode.detecting, 0, none, [⟨1, "A", [0]⟩], true, true⟩
        [⟨none, [0]⟩]) = [] ∧
    matcherCalls (runTrace pdist
        ⟨Mode.detecting, 0, none, [⟨1, "A", [0]⟩], true, true⟩
        [⟨none, [0]⟩, ⟨none, [0]⟩, ⟨none, [0]⟩, ⟨none, [0]⟩, ⟨none, [0]⟩]) =
      [0] :=
  ⟨(C8_debounce pdist ⟨Mode.detecting, 0, none, [⟨1, "A", [0]⟩], true, true⟩
      rfl rfl rfl).1 [⟨none, [0]⟩] (by decide) (by decide),
   (C8_debounce pdist ⟨Mode.detecting, 0, none, [⟨1, "A", [0]⟩], true, true⟩
      rfl rfl rfl).2 0 0 0 0 0 [] [] [] [] []⟩

/-! ## State characterization lemmas for reachability invariants -/

/-- Event emissions do not change the state. -/
lemma runActions_map_emit {E : Type} (s : SessionState E) (l : List Event) :
    runActions s (l.map (@Action.emit E)) = s := by
  induction l with
  | nil => rfl
  | cons e rest ih => exact ih

/-- The matcher-invocation actions (call marker plus status emissions) do
not change the state. -/
lemma runActions_invokeMatcher {E : Type} (dist : E → E → ℚ)
    (s s' : SessionState E) (obs : List E) :
    runActions s' (invokeMatcher dist s obs).2 = s' := by
  unfold invokeMatcher
  split
  · split
    · rfl
    · exact runActions_map_emit s' _
  · rfl

/-- Foldl form of `runActions_invokeMatcher`, convenient for rewriting. -/
lemma foldl_invokeMatcher {E : Type} (dist : E → E → ℚ)
    (s s' : SessionState E) (obs : List E) :
    List.foldl applyAction s' (invokeMatcher dist s obs).2 = s' :=
  runActions_invokeMatcher dist s s' obs

/-- Running the per-record load loop from a state whose worker list is the
accumulator sets the worker list to the loop's final list and changes
nothing else. -/
lemma runActions_loadRecords {E : Type} :
    ∀ (recs : List (LoadRecord E)) (s : SessionState E)
      (acc : List (Worker E)), s.workers = acc →
      runActions s (loadRecordsActions acc recs).1 =
        { s with workers := (loadRecordsActions acc recs).2 } := by
  intro recs
  induction recs with
  | nil =>
    intro s acc h
    subst h
    rfl
  | cons r rest ih =>
    intro s acc h
    cases r with
    | decodeFailure fn =>
      simpa [loadRecordsActions, runActions] using ih s acc h
    | ok isActive i n encs =>
      by_cases ha : isActive
      · by_cases henc : encs.isEmpty
        · simp only [loadRecordsActions, ha, henc, Bool.not_true, if_true,
            Bool.false_eq_true, if_false]
          exact ih s acc h
        · simp only [loadRecordsActions, ha, henc, Bool.not_true, if_true,
            Bool.false_eq_true, if_false]
          have := ih { s with workers := acc ++ [⟨i, n, encs⟩] }
            (acc ++ [⟨i, n, encs⟩]) rfl
          simpa [runActions, applyAction] using this
      · simp only [loadRecordsActions, ha, Bool.not_false,
          Bool.true_eq_false, if_true]
        exact ih s acc h

/-- Foldl form of `runActions_loadRecords`, convenient for rewriting. -/
lemma foldl_loadRecords {E : Type} (recs : List (LoadRecord E))
    (s : SessionState E) (acc : List (Worker E)) (h : s.workers = acc) :
    List.foldl applyAction s (loadRecordsActions acc recs).1 =
      { s with workers := (loadRecordsActions acc recs).2 } :=
  runActions_loadRecords recs s acc h

/-- A load from a missing folder clears the worker list and changes nothing
else (lines 43–47). -/
lemma runActions_loadWorkers_none {E : Type} (s : SessionState E) :
    runActions s (loadWorkersActions (none : LoadSource E)) =
      { s with workers := [] } := rfl

/-- `load_workers` replaces the worker list with the freshly decoded one and
sets `recognition_enabled` to true exactly when that list is non-empty —
otherwise the flag keeps its previous value (the `else` branch of line 80
never clears it). -/
lemma runActions_loadWorkers_some {E : Type} (recs : List (LoadRecord E))
    (s : SessionState E) :
    runActions s (loadWorkersActions (some recs)) =
      if 0 < (loadRecordsActions ([] : List (Worker E)) recs).2.length then
        { s with workers := (loadRecordsActions ([] : List (Worker E)) recs).2,
                 recognition_enabled := true }
      else
        { s with workers := (loadRecordsActions ([] : List (Worker E)) recs).2 } := by
  simp only [loadWorkersActions, runActions, List.foldl_cons,
    List.foldl_append, applyAction]
  rw [foldl_loadRecords recs { s with workers := ([] : List (Worker E)) }
    [] rfl]
  by_cases hlen : 0 < (loadRecordsActions ([] : List (Worker E)) recs).2.length
  · simp [hlen, List.foldl_cons, List.foldl_nil, applyAction]
  · simp [hlen, List.foldl_cons, List.foldl_nil, applyAction]

/-- Mode/count and workers/enabled effects of command handling: either the
command leaves mode and count unchanged, or it resets them (to `Detecting`
for `start_detection`, to `Idle` otherwise); and either it leaves workers
and the recognition flag unchanged, or (a reload) it guarantees the flag is
set whenever the new worker list is non-empty. -/
lemma cmd_chars {E : Type} (s : SessionState E) (c : Option (Command E)) :
    (((runActions s (checkCommandActions s c)).detection_mode =
        s.detection_mode ∧
      (runActions s (checkCommandActions s c)).detection_count =
        s.detection_count) ∨
     ((runActions s (checkCommandActions s c)).detection_mode =
        Mode.detecting ∧
      (runActions s (checkCommandActions s c)).detection_count = 0) ∨
     ((runActions s (checkCommandActions s c)).detection_mode = Mode.idle ∧
      (runActions s (checkCommandActions s c)).detection_count = 0)) ∧
    (((runActions s (checkCommandActions s c)).workers = s.workers ∧
      (runActions s (checkCommandActions s c)).recognition_enabled =
        s.recognition_enabled) ∨
     ((runActions s (checkCommandActions s c)).workers ≠ [] →
      (runActions s (checkCommandActions s c)).recognition_enabled = true)) := by
  cases c with
  | none => exact ⟨Or.inl ⟨rfl, rfl⟩, Or.inl ⟨rfl, rfl⟩⟩
  | some cmd =>
    cases cmd with
    | start_detection =>
      refine ⟨Or.inr (Or.inl ⟨?_, ?_⟩), Or.inl ⟨?_, ?_⟩⟩ <;>
        simp [checkCommandActions, commandActions, runActions, applyAction]
    | stop_detection =>
      refine ⟨Or.inr (Or.inr ⟨?_, ?_⟩), Or.inl ⟨?_, ?_⟩⟩ <;>
        simp [checkCommandActions, commandActions, runActions, applyAction]
    | confirm_signin =>
      cases hr : s.recognition_result with
      | none =>
        refine ⟨Or.inr (Or.inr ⟨?_, ?_⟩), Or.inl ⟨?_, ?_⟩⟩ <;>
          simp [checkCommandActions, commandActions, hr, runActions,
            applyAction]
      | some r =>
        refine ⟨Or.inr (Or.inr ⟨?_, ?_⟩), Or.inl ⟨?_, ?_⟩⟩ <;>
          simp [checkCommandActions, commandActions, hr, runActions,
            applyAction]
    | reload_workers src =>
      have hload :
          runActions s (checkCommandActions s (some (.reload_workers src))) =
          runActions s (loadWorkersActions src) := rfl
      cases src with
      | none =>
        rw [hload, runActions_loadWorkers_none s]
        refine ⟨Or.inl ⟨rfl, rfl⟩, Or.inr fun h => ?_⟩
        exact absurd rfl h
      | some recs =>
        rw [hload, runActions_loadWorkers_some recs s]
        by_cases hlen :
            0 < (loadRecordsActions ([] : List (Worker E)) recs).2.length
        · rw [if_pos hlen]
          exact ⟨Or.inl ⟨rfl, rfl⟩, Or.inr fun _ => rfl⟩
        · rw [if_neg hlen]
          refine ⟨Or.inl ⟨rfl, rfl⟩, Or.inr fun h => ?_⟩
          have hz : (loadRecordsActions ([] : List (Worker E)) recs).2.length = 0 := by
            omega
          exact absurd (List.length_eq_zero.mp hz) h
    | stop => exact ⟨Or.inl ⟨rfl, rfl⟩, Or.inl ⟨rfl, rfl⟩⟩
    | unrecognized t => exact ⟨Or.inl ⟨rfl, rfl⟩, Or.inl ⟨rfl, rfl⟩⟩

/-- Frame processing preserves the invariant "idle implies zero count": the
only transition into idle (the `signin_unknown` branch) also zeroes the
count. -/
lemma frame_preserves_idle_inv {E : Type} (dist : E → E → ℚ)
    (s : SessionState E) (obs : List E)
    (h : s.detection_mode = Mode.idle → s.detection_count = 0) :
    (runActions s (processFrameActions dist s obs)).detection_mode =
      Mode.idle →
    (runActions s (processFrameActions dist s obs)).detection_count = 0 := by
  cases hm : s.detection_mode with
  | idle =>
    simp only [processFrameActions, hm, runActions, List.foldl_nil]
    intro _
    exact h hm
  | confirmation =>
    simp only [processFrameActions, hm, runActions, List.foldl_nil]
    intro hcontra
    cases hcontra
  | detecting =>
    simp only [processFrameActions, hm]
    by_cases hlen : 0 < obs.length
    · rw [if_pos hlen]
      by_cases hthr : detection_threshold ≤ s.detection_count + 1
      · rw [if_pos hthr]
        simp only [runActions, List.foldl_cons, List.foldl_append, applyAction]
        rw [foldl_invokeMatcher]
        cases hres : (invokeMatcher dist s obs).1 with
        | some r =>
          simp only [List.foldl_cons, List.foldl_nil, applyAction]
          intro hcontra
          cases hcontra
        | none =>
          simp only [List.foldl_cons, List.foldl_nil, applyAction]
          intro _
          trivial
      · rw [if_neg hthr]
        simp only [runActions, List.foldl_cons, List.foldl_nil, applyAction]
        rw [hm]
        intro hcontra
        cases hcontra
    · rw [if_neg hlen]
      by_cases hcnt : 0 < s.detection_count
      · rw [if_pos hcnt]
        simp only [runActions, List.foldl_cons, List.foldl_nil, applyAction]
        rw [hm]
        intro hcontra
        cases hcontra
      · rw [if_neg hcnt]
        simp only [runActions, List.foldl_nil]
        rw [hm]
        intro hcontra
        cases hcontra

/-- Frame processing never touches the worker list or the recognition
flag. -/
lemma frame_preserves_workers_enabled {E : Type} (dist : E → E → ℚ)
    (s : SessionState E) (obs : List E) :
    (runActions s (processFrameActions dist s obs)).workers = s.workers ∧
    (runActions s (processFrameActions dist s obs)).recognition_enabled =
      s.recognition_enabled := by
  cases hm : s.detection_mode with
  | idle => simp [processFrameActions, hm, runActions]
  | confirmation => simp [processFrameActions, hm, runActions]
  | detecting =>
    simp only [processFrameActions, hm]
    by_cases hlen : 0 < obs.length
    · rw [if_pos hlen]
      by_cases hthr : detection_threshold ≤ s.detection_count + 1
      · rw [if_pos hthr]
        simp only [runActions, List.foldl_cons, List.foldl_append, applyAction]
        rw [foldl_invokeMatcher]
        cases hres : (invokeMatcher dist s obs).1 with
        | some r =>
          simp [List.foldl_cons, List.foldl_nil, applyAction]
        | none =>
          simp [List.foldl_cons, List.foldl_nil, applyAction]
      · rw [if_neg hthr]
        simp [runActions, applyAction]
    · rw [if_neg hlen]
      by_cases hcnt : 0 < s.detection_count
      · rw [if_pos hcnt]
        simp [runActions, applyAction]
      · rw [if_neg hcnt]
        simp [runActions]

/-- A tick is command handling followed by frame processing on the
intermediate state. -/
lemma tick_eq_cmd_frame {E : Type} (dist : E → E → ℚ) (s : SessionState E)
    (i : Input E) :
    tick dist s i =
      runActions (runActions s (checkCommandActions s i.cmd))
        (processFrameActions dist
          (runActions s (checkCommandActions s i.cmd)) i.obs) := by
  simp only [tick, tickActions, runActions, List.foldl_append]

/-- Every state reached by a sequence of loop iterations from a reachable
state is reachable. -/
lemma reachable_runInputs {E : Type} {dist : E → E → ℚ} {s : SessionState E}
    (h : Reachable dist s) :
    ∀ l : List (Input E), Reachable dist (runInputs dist s l) := by
  intro l
  induction l generalizing s with
  | nil => exact h
  | cons i rest ih => exact ih (h.step i)

/-! ## C2: the debounce counter outside Detecting -/

/-- C2 counterexample: after loading one worker, starting detection and five
matching frames, the session is reachable, sits in the confirmation state
(`AwaitingConfirmation`), and still carries `detection_count = 5` — the
transition on lines 249–251 does not reset the count, contradicting the
claim that the count is zero whenever the state is not `Detecting`. -/
theorem C2_count_counterexample :
    Reachable pdist (runInputs pdist (initState ℚ) demoInputs) ∧
    (runInputs pdist (initState ℚ) demoInputs).detection_mode =
      Mode.confirmation ∧
    (runInputs pdist (initState ℚ) demoInputs).detection_count = 5 :=
  ⟨reachable_runInputs Reachable.init demoInputs,
   by with_unfolding_all decide, by with_unfolding_all decide⟩

/-- C2 amended: in every reachable session state, `detection_count` is
non-zero only while the state is `Detecting` **or** `AwaitingConfirmation`;
it is always zero in `Idle`.  (The source keeps the count at the threshold
value while awaiting confirmation.) -/
theorem C2_amended_count_states {E : Type} (dist : E → E → ℚ)
    (s : SessionState E) (h : Reachable dist s)
    (hnz : s.detection_count ≠ 0) :
    s.detection_mode = Mode.detecting ∨
    s.detection_mode = Mode.confirmation := by
  have key : ∀ t : SessionState E, Reachable dist t →
      t.detection_mode = Mode.idle → t.detection_count = 0 := by
    intro t ht
    induction ht with
    | init => intro _; rfl
    | step i hprev ih =>
      rename_i sp
      rw [tick_eq_cmd_frame]
      apply frame_preserves_idle_inv
      rcases (cmd_chars sp i.cmd).1 with ⟨hm, hc⟩ | ⟨hm, hc⟩ | ⟨hm, hc⟩
      · intro hi
        rw [hc]
        exact ih (hm ▸ hi)
      · intro hi
        rw [hm] at hi
        cases hi
      · intro _
        exact hc
  cases hmode : s.detection_mode with
  | idle => exact absurd (key s h hmode) hnz
  | detecting => exact Or.inl rfl
  | confirmation => exact Or.inr rfl

/-- C2 amended witness: a concrete reachable state (detection started, one
face seen) with non-zero count is in `Detecting` or `AwaitingConfirmation`. -/
theorem C2_amended_count_states_witness :
    (runInputs pdist (initState ℚ)
        [⟨some Command.start_detection, []⟩, ⟨none, [0]⟩]).detection_mode =
      Mode.detecting ∨
    (runInputs pdist (initState ℚ)
        [⟨some Command.start_detection, []⟩, ⟨none, [0]⟩]).detection_mode =
      Mode.confirmation :=
  C2_amended_count_states pdist _
    (reachable_runInputs Reachable.init _) (by with_unfolding_all decide)

/-! ## C3: event ordering relative to state transitions -/

/-- C3 counterexample: on the tick that accepts a match, the trace is
`setCount 5, matcherCall, status, **signin_recognition**, setMode
confirmation, …` — the event at index 3 is emitted strictly *before* the
transition it reports (index 4), and no switch to confirmation precedes it,
contradicting "emitted strictly after the transition has been applied"
(`send_message` on line 244 runs before the assignment on line 250). -/
theorem C3_ordering_counterexample :
    (tickActions pdist (runInputs pdist (initState ℚ) (demoInputs.take 6))
        ⟨none, [0]⟩)[3]? =
      some (Action.emit (Event.signin_recognition "A" 100 1)) ∧
    (tickActions pdist (runInputs pdist (initState ℚ) (demoInputs.take 6))
        ⟨none, [0]⟩)[4]? =
      some (Action.setMode Mode.confirmation) ∧
    Action.setMode Mode.confirmation ∉
      (tickActions pdist (runInputs pdist (initState ℚ) (demoInputs.take 6))
        ⟨none, [0]⟩).take 4 := by
  with_unfolding_all decide

/-- The `signinOk` discipline survives appending further actions. -/
lemma signinOk_append {E : Type} (a : Action E) (l₁ l₂ : List (Action E))
    (h : signinOk a l₁ = true) : signinOk a (l₁ ++ l₂) = true := by
  cases a with
  | emit e =>
    cases e with
    | signin_recognition n c w =>
      cases l₁ with
      | nil => simp [signinOk] at h
      | cons b t =>
        simp only [signinOk, List.cons_append, List.head?_cons] at h ⊢
        exact h
    | signin_unknown =>
      cases l₁ with
      | nil => simp [signinOk] at h
      | cons b t =>
        simp only [signinOk, List.cons_append, List.head?_cons] at h ⊢
        exact h
    | signin_confirmed n c w =>
      simp only [signinOk, List.any_append, Bool.or_eq_true] at h ⊢
      exact Or.inl h
    | status m => rfl
    | error m => rfl
  | setMode m => rfl
  | setCount n => rfl
  | setResult r => rfl
  | setWorkers ws => rfl
  | setEnabled b => rfl
  | setRunning b => rfl
  | matcherCall q => rfl

/-- `signinOrdered` traces compose under concatenation. -/
lemma signinOrdered_append {E : Type} (l₁ l₂ : List (Action E))
    (h₁ : signinOrdered l₁ = true) (h₂ : signinOrdered l₂ = true) :
    signinOrdered (l₁ ++ l₂) = true := by
  induction l₁ with
  | nil => simpa using h₂
  | cons a t ih =>
    simp only [signinOrdered, Bool.and_eq_true] at h₁
    simp only [List.cons_append, signinOrdered, Bool.and_eq_true]
    exact ⟨signinOk_append a t l₂ h₁.1, ih h₁.2⟩

/-- The matcher-invocation actions are ordered (they emit only status
events). -/
lemma signinOrdered_invokeMatcher {E : Type} (dist : E → E → ℚ)
    (s : SessionState E) (obs : List E) :
    signinOrdered (invokeMatcher dist s obs).2 = true := by
  unfold invokeMatcher
  split
  · split
    · rfl
    · rename_i hd tl hcond
      show signinOrdered (Action.matcherCall hd :: List.map Action.emit
        (recognizeEvents
          (recognizeOutcome dist s.recognition_enabled s.workers hd))) = true
      cases recognizeOutcome dist s.recognition_enabled s.workers hd with
      | disabled => rfl
      | tooWeak b => rfl
      | ambiguous b sec => rfl
      | accepted b sec => rfl
  · rfl

/-- Command handling is ordered: `signin_confirmed` is followed in the same
command's actions by the reset to idle. -/
lemma signinOrdered_cmd {E : Type} (s : SessionState E)
    (c : Option (Command E)) :
    signinOrdered (checkCommandActions s c) = true := by
  cases c with
  | none => rfl
  | some cmd =>
    cases cmd with
    | start_detection => rfl
    | stop_detection => rfl
    | confirm_signin =>
      cases hr : s.recognition_result with
      | none =>
        simp [checkCommandActions, commandActions, hr, signinOrdered, signinOk]
      | some r =>
        simp [checkCommandActions, commandActions, hr, signinOrdered, signinOk]
    | reload_workers src =>
      have hrec : ∀ (recs : List (LoadRecord E)) (acc : List (Worker E)),
          signinOrdered (loadRecordsActions acc recs).1 = true := by
        intro recs
        induction recs with
        | nil => intro acc; rfl
        | cons r rest ih =>
          intro acc
          cases r with
          | decodeFailure fn =>
            simp only [loadRecordsActions, signinOrdered, Bool.and_eq_true]
            exact ⟨rfl, ih acc⟩
          | ok isActive i n encs =>
            by_cases ha : isActive
            · by_cases henc : encs.isEmpty
              · simp only [loadRecordsActions, ha, henc, Bool.not_true,
                  Bool.false_eq_true, if_false, if_true]
                exact ih acc
              · simp only [loadRecordsActions, ha, henc, Bool.not_true,
                  Bool.false_eq_true, if_false, if_true, signinOrdered,
                  Bool.and_eq_true]
                exact ⟨rfl, ih _⟩
            · simp only [loadRecordsActions, ha, Bool.not_false,
                Bool.true_eq_false, if_false, if_true]
              exact ih acc
      cases src with
      | none => rfl
      | some recs =>
        show signinOrdered (Action.emit (Event.status .receivedCommand) ::
          Action.setWorkers [] :: _) = true
        simp only [signinOrdered, Bool.and_eq_true]
        refine ⟨rfl, rfl, ?_⟩
        apply signinOrdered_append
        · exact hrec recs []
        · by_cases hlen :
              0 < (loadRecordsActions ([] : List (Worker E)) recs).2.length
          · rw [if_pos hlen]; rfl
          · rw [if_neg hlen]; rfl
    | stop => rfl
    | unrecognized t => rfl

/-- Frame processing is ordered: `signin_recognition` is immediately
followed by the switch to confirmation, `signin_unknown` immediately by the
reset to idle. -/
lemma signinOrdered_frame {E : Type} (dist : E → E → ℚ)
    (s : SessionState E) (obs : List E) :
    signinOrdered (processFrameActions dist s obs) = true := by
  cases hm : s.detection_mode with
  | idle => simp [processFrameActions, hm, signinOrdered]
  | confirmation => simp [processFrameActions, hm, signinOrdered]
  | detecting =>
    simp only [processFrameActions, hm]
    by_cases hlen : 0 < obs.length
    · rw [if_pos hlen]
      by_cases hthr : detection_threshold ≤ s.detection_count + 1
      · rw [if_pos hthr]
        simp only [signinOrdered, Bool.and_eq_true]
        refine ⟨rfl, ?_⟩
        apply signinOrdered_append
        · exact signinOrdered_invokeMatcher dist s obs
        · cases (invokeMatcher dist s obs).1 with
          | some r => rfl
          | none => rfl
      · rw [if_neg hthr]; rfl
    · rw [if_neg hlen]
      by_cases hcnt : 0 < s.detection_count
      · rw [if_pos hcnt]; rfl
      · rw [if_neg hcnt]; rfl

/-- C3 amended: every signin event is emitted in the same tick in which the
transition it reports is applied — before the next tick is processed — but
strictly *before* the transition rather than after it: `signin_recognition`
is immediately followed by the switch to confirmation,
`signin_unknown` immediately by the reset to idle, and `signin_confirmed` by
the reset to idle later in the same command handling. -/
theorem C3_amended_event_before_transition {E : Type} (dist : E → E → ℚ)
    (s : SessionState E) (i : Input E) :
    signinOrdered (tickActions dist s i) = true := by
  unfold tickActions
  exact signinOrdered_append _ _ (signinOrdered_cmd s i.cmd)
    (signinOrdered_frame dist _ i.obs)

/-! ## C4: the recognition-enabled flag versus the snapshot -/

/-- C4 counterexample: a load of one valid worker followed by a reload that
yields zero valid identities leaves `recognition_enabled = true` with an
empty worker list — the `else` branch of `load_workers` (lines 84–86) never
clears the flag, so "enabled iff the snapshot is non-empty" fails, and in
particular a reload yielding zero identities does **not** leave recognition
disabled. -/
theorem C4_enabled_counterexample :
    Reachable pdist (runInputs pdist (initState ℚ)
      [⟨some loadOneWorker, []⟩,
       ⟨some (Command.reload_workers (some [])), []⟩]) ∧
    (runInputs pdist (initState ℚ)
      [⟨some loadOneWorker, []⟩,
       ⟨some (Command.reload_workers (some [])), []⟩]).recognition_enabled =
      true ∧
    (runInputs pdist (initState ℚ)
      [⟨some loadOneWorker, []⟩,
       ⟨some (Command.reload_workers (some [])), []⟩]).workers = [] :=
  ⟨reachable_runInputs Reachable.init _,
   by with_unfolding_all decide, by with_unfolding_all decide⟩

/-- C4 amended: in every reachable state, `recognition_enabled` is true
**if** the snapshot contains at least one identity — a load with one or more
valid identities sets the flag — but not only if: a load yielding zero
identities keeps the flag's previous value (it is never cleared), so the
flag can remain true over an empty snapshot. -/
theorem C4_amended_enabled_if_nonempty {E : Type} (dist : E → E → ℚ)
    (s : SessionState E) (h : Reachable dist s) (hw : s.workers ≠ []) :
    s.recognition_enabled = true := by
  have key : ∀ t : SessionState E, Reachable dist t →
      t.workers ≠ [] → t.recognition_enabled = true := by
    intro t ht
    induction ht with
    | init => intro hw0; exact absurd rfl hw0
    | step i hprev ih =>
      rename_i sp
      rw [tick_eq_cmd_frame]
      intro hw1
      have hfp := frame_preserves_workers_enabled dist
        (runActions sp (checkCommandActions sp i.cmd)) i.obs
      rw [hfp.2]
      rw [hfp.1] at hw1
      rcases (cmd_chars sp i.cmd).2 with ⟨hwork, hen⟩ | himp
      · rw [hen]
        exact ih (by rw [hwork] at hw1; exact hw1)
      · exact himp hw1
  exact key s h hw

/-- C4 amended witness: after loading one valid worker the flag is set. -/
theorem C4_amended_enabled_witness :
    (runInputs pdist (initState ℚ)
        [⟨some loadOneWorker, []⟩]).recognition_enabled = true :=
  C4_amended_enabled_if_nonempty pdist _
    (reachable_runInputs Reachable.init _) (by with_unfolding_all decide)

/-! ## C10: confirm unconditionally resets the session -/

/-- C10: from every session state — including `Detecting` with a partially
accumulated count and `Idle` — processing the `confirm` command resets the
session to `Idle` with `detection_count = 0` and no pending result
(lines 337–340 run unconditionally; the frame processed afterwards is in
idle mode and changes nothing). -/
theorem C10_confirm_resets {E : Type} (dist : E → E → ℚ) (s : SessionState E)
    (obs : List E) :
    (tick dist s ⟨some Command.confirm_signin, obs⟩).detection_mode =
        Mode.idle ∧
    (tick dist s ⟨some Command.confirm_signin, obs⟩).detection_count = 0 ∧
    (tick dist s ⟨some Command.confirm_signin, obs⟩).recognition_result =
        none := by
  cases hr : s.recognition_result with
  | none =>
    simp [tick, tickActions, checkCommandActions, commandActions, hr,
      runActions, applyAction, processFrameActions]
  | some r =>
    simp [tick, tickActions, checkCommandActions, commandActions, hr,
      runActions, applyAction, processFrameActions]

end UnifiedVideoDetection
